import Mathlib

/-!
Verification of the filetree_timeline_visualizer backend against its
natural-language specification.

The development shallowly embeds the algorithmic core of
`src/unified_backend.py` (and the matching scanner in
`src/file-tree-timeline/backend/scanner.py`): the recursive directory
scanner, the milestone-extraction post-processing, the confidence and
priority scoring, the correlation engine, the event store upsert and the
communication-thread grouping.

Modelling conventions:
* The filesystem handed to the scanner by the OS is a finite tree
  (`FSNode`).  Per-item I/O outcomes (a failing `stat`, an unreadable
  file, an unlistable directory) are modelled as boolean flags carried by
  the tree, since the Python code observes them only as caught
  `OSError`/`IOError` exceptions.
* Python floats (timestamps, correlation strengths, confidence values)
  are modelled as rationals; every arithmetic step performed by the code
  on those values (adding multiples of 0.5 or 0.1-granularity constants,
  min/max) is exact in binary floating point on the ranges involved.
* External collaborators (the Python `re` engine, `hashlib`, CPython's
  randomized `hash`) are not re-implemented: regex match results are
  inputs to the functions that consume them, and hash primitives are
  modelled by explicit stand-in functions; no claim depends on their
  values.
-/

/-! ### String helpers

The Python string operations the backend relies on (`in`, `startswith`,
`endswith`, `lower`, `strip`, `len`, lexicographic `<`) are modelled
directly on the character lists underlying `String`; Python compares and
transforms strings per code point, which is what these definitions do.
Case mapping and whitespace are handled on the ASCII range, which covers
every string the backend's fixed patterns and keys introduce. -/

/-- Needle is an initial segment of hay (Python `startswith`, on char lists). -/
def char_list_starts : List Char → List Char → Bool
  | [], _ => true
  | _ :: _, [] => false
  | a :: as, b :: bs => a == b && char_list_starts as bs

/-- Needle occurs contiguously inside hay (Python `in`, on char lists). -/
def char_list_occurs (needle : List Char) : List Char → Bool
  | [] => needle.isEmpty
  | b :: bs => char_list_starts needle (b :: bs) || char_list_occurs needle bs

/-- Needle is a final segment of hay (Python `endswith`, on char lists). -/
def char_list_ends (needle hay : List Char) : Bool :=
  char_list_starts needle.reverse hay.reverse

/-- Python's `needle in hay` substring test on strings. -/
def str_contains (hay needle : String) : Bool :=
  char_list_occurs needle.toList hay.toList

/-- Python's `s.startswith(pre)`. -/
def str_starts (s pre : String) : Bool :=
  char_list_starts pre.toList s.toList

/-- Python's `c.lower()` for a single code point (ASCII case mapping). -/
def char_lower (c : Char) : Char :=
  if 65 ≤ c.toNat && c.toNat ≤ 90 then Char.ofNat (c.toNat + 32) else c

/-- Python's `s.lower()`. -/
def str_lower (s : String) : String :=
  (s.toList.map char_lower).asString

/-- ASCII whitespace, as stripped by Python's `str.strip()`. -/
def is_space_char (c : Char) : Bool :=
  c.toNat == 32 || c.toNat == 9 || c.toNat == 10 ||
    c.toNat == 13 || c.toNat == 11 || c.toNat == 12

/-- Python's `s.strip()`: drop whitespace from both ends. -/
def str_strip (s : String) : String :=
  (((s.toList.dropWhile is_space_char).reverse.dropWhile is_space_char).reverse).asString

/-- Python's `len(s)`: the number of code points. -/
def str_len (s : String) : Nat := s.toList.length

/-- Lexicographic code-point order on char lists (Python string `<`). -/
def char_list_lt : List Char → List Char → Bool
  | [], [] => false
  | [], _ :: _ => true
  | _ :: _, [] => false
  | a :: as, b :: bs =>
      if a.toNat < b.toNat then true
      else if b.toNat < a.toNat then false
      else char_list_lt as bs

/-- Python string `<`. -/
def str_lt (a b : String) : Bool := char_list_lt a.toList b.toList

/-! ### Ignore rules (`_should_ignore`, unified_backend.py:218-230) -/

/-- The `ignore_patterns` set from `UnifiedTimelineGenerator.__init__`
(unified_backend.py:111-115), written as a list; the Python code only
folds a symmetric `or` over the set, so iteration order is irrelevant. -/
def ignore_patterns : List String :=
  [".git", "__pycache__", "node_modules", ".DS_Store",
   ".env", ".vscode", ".idea", "*.pyc", ".pytest_cache",
   "venv", "env", ".venv", "dist", "build", "*.db"]

/-- `_should_ignore(path)`: `path_str = str(path)`, `name = path.name`;
a pattern starting with `*` matches as a suffix of the name, any other
pattern matches as a substring of the full path string or as the whole
name. -/
def should_ignore (pathStr name : String) : Bool :=
  ignore_patterns.any (fun pat =>
    if str_starts pat "*" then char_list_ends (pat.toList.drop 1) name.toList
    else str_contains pathStr pat || name == pat)

/-! ### The scan sort key (`unified_backend.py:313`)

`sorted(folder_path.iterdir(), key=lambda p: (p.is_file(), p.name.lower()))`
sorts by the tuple `(is_file, lowercased name)` in ascending order, with
`False < True` on booleans. -/

/-- Strict lexicographic order on the Python sort key `(is_file, name.lower())`. -/
def key_lt (a b : Bool × String) : Bool :=
  (!a.1 && b.1) || (a.1 == b.1 && str_lt a.2 b.2)

/-! ### Stable insertion sort by a key function

Python's `sorted` is a stable sort driven only by the key of each item;
it is modelled by a stable insertion sort (an earlier item is placed
before later items with an equal key). -/

/-- Insert `x` before the first element whose key is not smaller. -/
def key_insert {α : Type} (key : α → Bool × String) (x : α) : List α → List α
  | [] => [x]
  | y :: ys => if key_lt (key y) (key x) then y :: key_insert key x ys else x :: y :: ys

/-- Stable sort by key, as performed on directory entries before the scan loop. -/
def key_sort {α : Type} (key : α → Bool × String) : List α → List α
  | [] => []
  | x :: xs => key_insert key x (key_sort key xs)

/-! ### The filesystem model

A directory tree as the OS presents it to the scanner.  `statOk` models
whether `stat()`/metadata access on a file succeeds (`get_file_info`'s
`try` block), `readOk` whether the file can be opened and streamed for
hashing (`_get_file_hash`'s `try` block), and `listOk` whether
`iterdir()` and the folder's own `stat()` succeed (`_scan_folder`'s
`try` block).  `digest` is the truncated content hash the external
`hashlib` primitive would produce for the file's bytes, and `mime` the
string `mimetypes.guess_type` returns (empty when it returns `None`).
`relPath` is `str(path.relative_to(root))` as computed by `pathlib`. -/
inductive FSNode where
  | file (name pathStr : String) (size : Nat) (mime digest : String)
      (created modified : Rat) (statOk readOk : Bool)
  | dir (name pathStr relPath : String) (created modified : Rat) (listOk : Bool)
      (entries : List FSNode)

/-- `path.name` of a directory item. -/
def FSNode.nodeName : FSNode → String
  | .file n _ _ _ _ _ _ _ _ => n
  | .dir n _ _ _ _ _ _ => n

/-- `str(path)` of a directory item. -/
def FSNode.nodePath : FSNode → String
  | .file _ p _ _ _ _ _ _ _ => p
  | .dir _ p _ _ _ _ _ => p

/-- `path.is_file()` of a directory item. -/
def FSNode.isFileEntry : FSNode → Bool
  | .file _ _ _ _ _ _ _ _ _ => true
  | .dir _ _ _ _ _ _ _ => false

/-- The sort key `(p.is_file(), p.name.lower())` from unified_backend.py:313. -/
def scan_key (n : FSNode) : Bool × String := (n.isFileEntry, str_lower n.nodeName)

/-! ### Scanner output structures (`FileInfo`, `FolderInfo`) -/

/-- The `FileInfo` dataclass (unified_backend.py:54-64). -/
structure FileInfo where
  name : String
  path : String
  size : Nat
  mime_type : String
  file_hash : String
  created : Rat
  modified : Rat
  depth : Nat

mutual
/-- A `children` list entry of `FolderInfo`, tagged `'file'` or `'folder'`
as in `_scan_folder`'s `children.append({'type': ..., 'data': ...})`. -/
inductive ChildEntry where
  | file (data : FileInfo)
  | folder (data : FolderInfo)

/-- The `FolderInfo` dataclass (unified_backend.py:67-77). -/
inductive FolderInfo where
  | mk (name path : String) (size : Nat) (file_count : Nat)
      (created modified : Rat) (depth : Nat) (children : List ChildEntry)
end

def FolderInfo.name : FolderInfo → String
  | .mk n _ _ _ _ _ _ _ => n

def FolderInfo.path : FolderInfo → String
  | .mk _ p _ _ _ _ _ _ => p

def FolderInfo.size : FolderInfo → Nat
  | .mk _ _ s _ _ _ _ _ => s

def FolderInfo.file_count : FolderInfo → Nat
  | .mk _ _ _ c _ _ _ _ => c

def FolderInfo.depth : FolderInfo → Nat
  | .mk _ _ _ _ _ _ d _ => d

def FolderInfo.children : FolderInfo → List ChildEntry
  | .mk _ _ _ _ _ _ _ cs => cs

/-- The name recorded in a child entry. -/
def ChildEntry.entryName : ChildEntry → String
  | .file fi => fi.name
  | .folder fo => fo.name

/-- Whether a child entry is a file entry. -/
def ChildEntry.isFile : ChildEntry → Bool
  | .file _ => true
  | .folder _ => false

/-- The sort key a child entry inherits from the directory item that
produced it: `(is_file, name.lower())`. -/
def child_key (c : ChildEntry) : Bool × String := (c.isFile, str_lower c.entryName)

/-! ### The scanner (`_get_file_hash`, `get_file_info`, `_scan_folder`) -/

/-- `_get_file_hash` (unified_backend.py:232-241): the streamed, truncated
SHA256 digest on success, the sentinel `"unknown"` when opening or
reading the file raises `OSError`/`IOError`. -/
def get_file_hash (digest : String) (readOk : Bool) : String :=
  if readOk then digest else "unknown"

/-- `get_file_info` (unified_backend.py:243-263): `None` when `stat()`
fails, otherwise the `FileInfo` record.  `path` is
`str(file_path.relative_to(file_path.parent))`, i.e. the file's own
name; a missing mime type falls back to `"application/octet-stream"`. -/
def get_file_info (n : FSNode) (depth : Nat) : Option FileInfo :=
  match n with
  | .file name _ size mime digest created modified statOk readOk =>
      if statOk then
        some { name := name
               path := name
               size := size
               mime_type := if mime = "" then "application/octet-stream" else mime
               file_hash := get_file_hash digest readOk
               created := created
               modified := modified
               depth := depth }
      else none
  | .dir _ _ _ _ _ _ _ => none

/-- What one sorted directory item contributes to the enclosing folder:
`none` when the item is ignored or its per-item I/O failed, otherwise the
tagged child entry with its `total_size` and `file_count` contributions. -/
abbrev ScanItem := (Bool × String) × Option (ChildEntry × Nat × Nat)

mutual
/-- `_scan_folder` (unified_backend.py:306-353).  The Python code sorts
the directory items by `(is_file, name.lower())` and then processes each
item independently (skip if ignored; file: `get_file_info`, count and
size accumulate; folder: recurse, skip on `None`).  Because each item's
result does not depend on its position, the embedding computes every
item's result first (`scan_entries`, in directory order) and then applies
the same stable key sort to the results, which yields the identical
child sequence and totals. -/
def scan_folder (isRoot : Bool) (depth : Nat) : FSNode → Option FolderInfo
  | .file _ _ _ _ _ _ _ _ _ => none
  | .dir name _ relPath created modified listOk entries =>
      if listOk then
        let ordered := key_sort (fun it : ScanItem => it.1) (scan_entries depth entries)
        let included := ordered.filterMap Prod.snd
        some (.mk (if isRoot then "root" else name)
                  (if isRoot then "" else relPath)
                  (included.foldl (fun s r => s + r.2.1) 0)
                  (included.foldl (fun c r => c + r.2.2) 0)
                  created modified depth
                  (included.map Prod.fst))
      else none
termination_by structural n => n

/-- The loop body of `_scan_folder` applied to each directory item, in
directory order, keeping the item's sort key. -/
def scan_entries (depth : Nat) : List FSNode → List ScanItem
  | [] => []
  | e :: rest =>
      let r : Option (ChildEntry × Nat × Nat) :=
        if should_ignore e.nodePath e.nodeName then none
        else
          match e with
          | .file _ _ _ _ _ _ _ _ _ =>
              match get_file_info e (depth + 1) with
              | some fi => some (.file fi, fi.size, 1)
              | none => none
          | .dir _ _ _ _ _ _ _ =>
              match scan_folder false (depth + 1) e with
              | some fo => some (.folder fo, fo.size, fo.file_count)
              | none => none
      (scan_key e, r) :: scan_entries depth rest
termination_by structural l => l
end

/-! ### `scan_directory` (unified_backend.py:265-304) -/

/-- The root path as handed to `scan_directory`: whether
`root_path.exists()` and `root_path.is_dir()` hold, and the directory
tree behind it when it is a directory. -/
structure RootFS where
  pathExists : Bool
  isDir : Bool
  node : FSNode

/-- The hard failures `scan_directory` can raise. -/
inductive ScanError where
  | fileNotFound
  | notADirectory

/-- The claim-relevant part of the `file_scan` event metadata built by
`scan_directory`: the (possibly absent) serialized tree, and the
`file_count` / `total_size` fields, which fall back to `0` when the root
folder itself failed to scan. -/
structure ScanEvent where
  tree_structure : Option FolderInfo
  file_count : Nat
  total_size : Nat

/-- `scan_directory` (unified_backend.py:265-304): raises
`FileNotFoundError` when the root does not exist, `NotADirectoryError`
when it is not a directory, and otherwise always returns an event, even
when `_scan_folder` returned `None` for the root itself. -/
def scan_directory (fs : RootFS) : Except ScanError ScanEvent :=
  if !fs.pathExists then .error .fileNotFound
  else if !fs.isDir then .error .notADirectory
  else
    let tree := scan_folder true 0 fs.node
    .ok { tree_structure := tree
          file_count := match tree with | some t => t.file_count | none => 0
          total_size := match tree with | some t => t.size | none => 0 }

/-! ### Specification-side aggregates

The number of non-ignored, readable files in a subtree and the sum of
their sizes, counted directly over the input tree: a file counts iff its
metadata is readable (`statOk`) and no ancestor ignored or failed; a
directory contributes its entries iff its listing succeeded.  The ignore
check applies to the items of a listing, exactly as the scanner applies
it. -/

mutual
def spec_count : FSNode → Nat
  | .file _ _ _ _ _ _ _ statOk _ => if statOk then 1 else 0
  | .dir _ _ _ _ _ listOk entries => if listOk then spec_count_list entries else 0

def spec_count_list : List FSNode → Nat
  | [] => 0
  | e :: rest =>
      (if should_ignore e.nodePath e.nodeName then 0 else spec_count e) +
        spec_count_list rest
end

mutual
def spec_size : FSNode → Nat
  | .file _ _ size _ _ _ _ statOk _ => if statOk then size else 0
  | .dir _ _ _ _ _ listOk entries => if listOk then spec_size_list entries else 0

def spec_size_list : List FSNode → Nat
  | [] => 0
  | e :: rest =>
      (if should_ignore e.nodePath e.nodeName then 0 else spec_size e) +
        spec_size_list rest
end

/-! ### Reordering directory entries

`Reorder t u` holds when `u` is `t` with the entry lists of its
directories permuted, at any depth: the formalization of "independent of
the order in which directory entries are enumerated". -/

mutual
inductive Reorder : FSNode → FSNode → Prop where
  | file (name pathStr : String) (size : Nat) (mime digest : String)
      (created modified : Rat) (statOk readOk : Bool) :
      Reorder (.file name pathStr size mime digest created modified statOk readOk)
              (.file name pathStr size mime digest created modified statOk readOk)
  | dir (name pathStr relPath : String) (created modified : Rat) (listOk : Bool)
      (entries entries2 : List FSNode) :
      ReorderList entries entries2 →
      Reorder (.dir name pathStr relPath created modified listOk entries)
              (.dir name pathStr relPath created modified listOk entries2)

inductive ReorderList : List FSNode → List FSNode → Prop where
  | nil : ReorderList [] []
  | cons {a b : FSNode} {l l2 : List FSNode} :
      Reorder a b → ReorderList l l2 → ReorderList (a :: l) (b :: l2)
  | swap (a b : FSNode) (l : List FSNode) : ReorderList (a :: b :: l) (b :: a :: l)
  | trans {l1 l2 l3 : List FSNode} :
      ReorderList l1 l2 → ReorderList l2 l3 → ReorderList l1 l3
end

/-- The ordering the scanner actually establishes on a `children` list:
non-decreasing in the key `(is_file, name.lower())`, so folder entries
precede file entries and each group is ordered case-insensitively. -/
def child_le (c d : ChildEntry) : Prop := key_lt (child_key d) (child_key c) = false

/-- The ordering claimed by the specification: all file entries before
all folder entries, each group ordered case-insensitively by name. -/
def claim_key (c : ChildEntry) : Bool × String := (!c.isFile, str_lower c.entryName)

/-- Executable check of the specification's claimed child ordering. -/
def pairwise_chk {α : Type} (r : α → α → Bool) : List α → Bool
  | [] => true
  | x :: xs => xs.all (r x) && pairwise_chk r xs

/-- Executable check: children listed with files (sorted) before folders
(sorted), the ordering the specification asserts. -/
def files_before_folders (cs : List ChildEntry) : Bool :=
  pairwise_chk (fun c d => !key_lt (claim_key d) (claim_key c)) cs

/-! ### Concrete fixtures for the scanner claims -/

def folder_default : FolderInfo := .mk "" "" 0 0 0 0 0 []

/-- A root with one file and one subfolder, none ignored. -/
def c1_tree : FSNode :=
  .dir "r" "/r" "" 0 0 true
    [.file "a.txt" "/r/a.txt" 3 "" "h1" 0 0 true true,
     .dir "b" "/r/b" "b" 0 0 true []]

def c1_result : FolderInfo := (scan_folder true 0 c1_tree).getD folder_default

/-- A root with two readable files. -/
def c2_tree : FSNode :=
  .dir "r" "/r" "" 0 0 true
    [.file "a.txt" "/r/a.txt" 3 "" "h1" 0 0 true true,
     .file "b.txt" "/r/b.txt" 4 "" "h2" 0 0 true true]

/-- `c2_tree` with its two directory entries enumerated in the other order. -/
def c2_tree2 : FSNode :=
  .dir "r" "/r" "" 0 0 true
    [.file "b.txt" "/r/b.txt" 4 "" "h2" 0 0 true true,
     .file "a.txt" "/r/a.txt" 3 "" "h1" 0 0 true true]

def c2_result : FolderInfo := (scan_folder true 0 c2_tree).getD folder_default

def c2_result2 : FolderInfo := (scan_folder true 0 c2_tree2).getD folder_default

/-- A root whose only file's name contains the ignore pattern `env` inside
a longer word. -/
def c9_tree : FSNode :=
  .dir "r" "/r" "" 0 0 true
    [.file "my_environment.txt" "/r/my_environment.txt" 7 "" "h9" 0 0 true true]

/-! ### Milestone extraction (`_extract_milestones_from_content` and helpers)

The Python `re` engine is an external collaborator: the sequence of
`(category, captured span)` pairs its `finditer` loops yield, and the
file references `_extract_file_references` collects, are inputs to the
embedded functions. -/

/-- One regex match as delivered by the pattern loops of
`_extract_milestones_from_content`: the category whose pattern matched and
the captured span (`group(1)` when the pattern has groups, else
`group(0)`). -/
structure PatternMatch where
  category : String
  captured : String

/-- The `Milestone` dataclass (unified_backend.py:80-94). -/
structure Milestone where
  id : String
  timestamp : Rat
  title : String
  description : String
  category : String
  priority : String
  participants : List String
  source : String
  source_id : String
  status : String
  related_files : List String
  confidence : Rat

/-- Stand-in for CPython's builtin `hash` on strings (an external,
per-process randomized primitive): an explicit deterministic function.
No claim depends on its values. -/
def py_hash (s : String) : Nat :=
  s.toList.foldl (fun h c => (h * 31 + c.toNat) % (2 ^ 61)) 7

/-- `_determine_priority`'s keyword sets (unified_backend.py:656-657). -/
def high_priority_keywords : List String :=
  ["urgent", "asap", "critical", "immediately", "emergency"]

def medium_priority_keywords : List String :=
  ["important", "priority", "soon", "needed"]

/-- `_determine_priority` (unified_backend.py:654-666). -/
def determine_priority (context milestone_text : String) : String :=
  let combined := str_lower (context ++ " " ++ milestone_text)
  if high_priority_keywords.any (fun k => str_contains combined k) then "high"
  else if medium_priority_keywords.any (fun k => str_contains combined k) then "medium"
  else "low"

/-- The project-vocabulary keywords of `_calculate_confidence`
(unified_backend.py:677). -/
def project_keywords : List String := ["project", "deliverable", "requirement"]

/-- `re.search(r'\d{1,2}', s)` succeeds exactly when `s` contains a digit. -/
def contains_digit (s : String) : Bool :=
  s.toList.any (fun c => 48 <= c.toNat && c.toNat <= 57)

/-- Python's `min` on two floats, as an executable definition. -/
def rat_min (a b : Rat) : Rat := if a ≤ b then a else b

/-- Python's `max` on two floats, as an executable definition. -/
def rat_max (a b : Rat) : Rat := if a ≤ b then b else a

/-- `_calculate_confidence` (unified_backend.py:668-684). -/
def calculate_confidence (category milestone_text context : String) : Rat :=
  let c0 : Rat := 1/2
  let c1 := if (category == "deadline" || category == "meeting") &&
      contains_digit milestone_text then c0 + 3/10 else c0
  let c2 := if project_keywords.any (fun w => str_contains (str_lower context) w) then
      c1 + 2/10 else c1
  let c3 := if str_len milestone_text < 20 then c2 - 2/10 else c2
  rat_max 0 (rat_min 1 c3)

/-- The category prefix glyphs of `_generate_milestone_title`
(unified_backend.py:692-702), byte-for-byte as they appear in the source. -/
def category_prefixes : List (String × String) :=
  [("deadline", "‚è∞"),
   ("requirement", "üìã"),
   ("deliverable", "üì¶"),
   ("meeting", "ü§ù"),
   ("decision", "‚úÖ"),
   ("issue", "‚ö†Ô∏è")]

/-- `_generate_milestone_title` (unified_backend.py:686-703). -/
def generate_milestone_title (category description : String) : String :=
  let title := str_strip ((description.toList.take 50).asString)
  let title := if str_len description > 50 then title ++ "..." else title
  let pre := (category_prefixes.lookup category).getD "üìå"
  pre ++ " " ++ title

/-- The `Milestone` record built for one accepted match inside
`_extract_milestones_from_content` (unified_backend.py:580-593).
`file_refs` is what the external regex pass `_extract_file_references`
returned on the full content. -/
def mk_milestone (subject body : String) (timestamp : Rat) (participants : List String)
    (source_id : String) (file_refs : List String) (m : PatternMatch) : Milestone :=
  let full_content := subject ++ "\n\n" ++ body
  let milestone_text := str_strip m.captured
  { id := "email_" ++ toString (py_hash (source_id ++ milestone_text))
    timestamp := timestamp
    title := generate_milestone_title m.category milestone_text
    description := milestone_text
    category := m.category
    priority := determine_priority full_content milestone_text
    participants := participants
    source := "email"
    source_id := source_id
    status := "pending"
    related_files := file_refs
    confidence := calculate_confidence m.category milestone_text full_content }

/-- `_extract_milestones_from_content` (unified_backend.py:547-597), with
the regex matches (in loop order) and the collected file references given
by the external `re` collaborator: returns nothing on whitespace-only
content, skips any match whose stripped span is shorter than 5
characters, and emits one milestone per remaining match. -/
def extract_milestones_from_content (subject body : String) (timestamp : Rat)
    (participants : List String) (source_id : String) (file_refs : List String)
    (ms : List PatternMatch) : List Milestone :=
  if str_strip (subject ++ "\n\n" ++ body) == "" then []
  else
    ms.filterMap (fun m =>
      let milestone_text := str_strip m.captured
      if str_len milestone_text < 5 then none
      else some (mk_milestone subject body timestamp participants source_id file_refs m))

/-- Matches as the regex engine would deliver them on a small fixture: one
capture of 20 characters and one whose stripped span has 3 characters. -/
def c5_ms : List PatternMatch :=
  [⟨"requirement", "to finish the report"⟩, ⟨"deadline", " abc "⟩]

/-! ### The correlation engine (`analyze_correlations`,
`_calculate_file_correlation`, unified_backend.py:725-811)

The stored event metadata is a JSON document (the Python code loads it
with `json.loads` and walks dicts and lists), modelled by `JValue`. -/

inductive JValue where
  | str (s : String)
  | num (q : Rat)
  | jbool (b : Bool)
  | null
  | arr (items : List JValue)
  | obj (fields : List (String × JValue))

mutual
/-- `extract_file_names` inside `_calculate_file_correlation`
(unified_backend.py:789-802): collect the value of every `'name'` key in
the nested structure (string-valued in every document the scanner
produces), recursing into all dict values and list items. -/
def extract_file_names : JValue → List String
  | .obj fields =>
      (match fields.lookup "name" with
       | some (.str s) => [s]
       | _ => []) ++ extract_file_names_fields fields
  | .arr items => extract_file_names_items items
  | _ => []

def extract_file_names_fields : List (String × JValue) → List String
  | [] => []
  | (_, v) :: rest => extract_file_names v ++ extract_file_names_fields rest

def extract_file_names_items : List JValue → List String
  | [] => []
  | v :: rest => extract_file_names v ++ extract_file_names_items rest
end

/-- One loop step of `_calculate_file_correlation`: add 0.5 when the
milestone's file reference occurs case-insensitively in some collected
name. -/
def file_match_step (scan_files : List String) (correlation : Rat)
    (milestone_file : String) : Rat :=
  if scan_files.any (fun sf => str_contains (str_lower sf) (str_lower milestone_file)) then
    correlation + 1/2
  else correlation

/-- `_calculate_file_correlation` (unified_backend.py:781-811): 0.0 for an
empty reference list, otherwise 0.5 per matching reference, capped at 1.0. -/
def calculate_file_correlation (milestone_files : List String) (file_data : JValue) : Rat :=
  if milestone_files.isEmpty then 0
  else
    let scan_files := extract_file_names file_data
    rat_min 1 (milestone_files.foldl (file_match_step scan_files) 0)

/-- A milestone event row as `analyze_correlations` reads it back:
identifier, timestamp, and the `related_files` list of its metadata. -/
structure MilestoneEventRow where
  event_id : String
  timestamp : Rat
  related_files : List String

/-- A file_scan event row: identifier, timestamp, and its metadata
document. -/
structure FileEventRow where
  event_id : String
  timestamp : Rat
  file_data : JValue

/-- A row of the `correlations` table. -/
structure CorrelationRec where
  file_event_id : String
  milestone_event_id : String
  correlation_strength : Rat
  correlation_type : String

/-- The 7-day window of `analyze_correlations` (unified_backend.py:750),
in seconds. -/
def correlation_window : Rat := 7 * 24 * 3600

/-- The body of the inner loop of `analyze_correlations`
(unified_backend.py:745-764) for one (milestone, file_scan) pair: inside
the window, compute the strength and keep the pair exactly when it
exceeds the 0.1 threshold. -/
def correlate_pair (m : MilestoneEventRow) (f : FileEventRow) : Option CorrelationRec :=
  if |m.timestamp - f.timestamp| ≤ correlation_window then
    let s := calculate_file_correlation m.related_files f.file_data
    if s > 1/10 then
      some ⟨f.event_id, m.event_id, s, "temporal_file_mention"⟩
    else none
  else none

/-- The correlations one milestone contributes, over all file events in
order. -/
def milestone_correlations (m : MilestoneEventRow) (file_events : List FileEventRow) :
    List CorrelationRec :=
  file_events.filterMap (correlate_pair m)

/-- `analyze_correlations` over the two event streams read back from the
store. -/
def analyze_correlations (file_events : List FileEventRow)
    (milestone_events : List MilestoneEventRow) : List CorrelationRec :=
  (milestone_events.map (fun m => milestone_correlations m file_events)).flatten

/-- The number of milestone file references that occur case-insensitively
in some collected name. -/
def match_count (milestone_files scan_files : List String) : Nat :=
  (milestone_files.filter
    (fun mf => scan_files.any (fun sf => str_contains (str_lower sf) (str_lower mf)))).length

/-- A milestone event referencing `report.docx`. -/
def c3_m : MilestoneEventRow := ⟨"milestone_1", 100, ["report.docx"]⟩

/-- A file_scan event whose tree payload contains a file named
`Report.docx`. -/
def c3_f : FileEventRow :=
  ⟨"filescan_1", 100,
    .obj [("name", .str "root"),
          ("children", .arr [.obj [("name", .str "Report.docx"), ("size", .num 3)]])]⟩

/-! ### The event store (`store_events`, unified_backend.py:705-723)

The `events` table keys rows by `event_id` (`PRIMARY KEY`); `INSERT OR
REPLACE` deletes a conflicting row and inserts the new one. -/

/-- A row of the `events` table: the values `store_events` binds
(`event_id, timestamp, event_type, json.dumps(metadata)`); the metadata
blob is the serialized string. -/
structure StoredEvent where
  event_id : String
  timestamp : Rat
  event_type : String
  metadata : String

/-- One `INSERT OR REPLACE` on the `events` table. -/
def upsert_event (st : List StoredEvent) (e : StoredEvent) : List StoredEvent :=
  st.filter (fun r => !(r.event_id == e.event_id)) ++ [e]

/-- `store_events`: one upsert per event of the batch, in batch order. -/
def store_events (st : List StoredEvent) (events : List StoredEvent) : List StoredEvent :=
  events.foldl upsert_event st

/-- Whether some event of the batch carries this row's identifier. -/
def replaced_by (es : List StoredEvent) (r : StoredEvent) : Bool :=
  es.any (fun e => r.event_id == e.event_id)

/-- `SELECT ... WHERE event_id = k` on the modelled table. -/
def lookup_event (st : List StoredEvent) (k : String) : Option StoredEvent :=
  st.find? (fun r => r.event_id == k)

/-- Two distinct stored rows. -/
def c6_st : List StoredEvent :=
  [⟨"filescan_1", 1, "file_scan", "blob1"⟩, ⟨"milestone_2", 2, "milestone", "blob2"⟩]

/-- A new event reusing the identifier `filescan_1` with a new payload. -/
def c6_e : StoredEvent := ⟨"filescan_1", 3, "file_scan", "blob3"⟩

/-! ### Communication threads (`extract_communication_threads`,
unified_backend.py:978-1128)

The grouping core operates on parsed messages: the (subject,
participants, timestamp) triples the three per-format parsing branches
produce from the message files. -/

/-- The `CommunicationThread` dataclass (unified_backend.py:23-32). -/
structure CommunicationThread where
  thread_id : String
  subject : String
  participants : List String
  start_date : Rat
  end_date : Rat
  message_count : Nat
  key_topics : List String

/-- A parsed message: what the per-format branches hand to the grouping
step. -/
structure ParsedMessage where
  subject : String
  participants : List String
  timestamp : Rat

/-- One step of `normalize_subject`'s marker loop: strip this leading
marker once, with `strip()` applied to the remainder. -/
def strip_reply_marker (s : String) (marker : String) : String :=
  if str_starts s marker then str_strip ((s.toList.drop (str_len marker)).asString) else s

/-- The reply/forward markers, in the order the loop tries them. -/
def reply_markers : List String := ["re:", "fw:", "fwd:"]

/-- `normalize_subject` (unified_backend.py:988-993): lowercase and strip,
then try each marker once, in order — so `"re: fwd: x"` loses both
markers. -/
def normalize_subject (subject : String) : String :=
  reply_markers.foldl strip_reply_marker (str_strip (str_lower subject))

/-- Python's `sorted` on a list of strings (codepoint order; equal
elements are interchangeable, so stability does not affect the result). -/
def insert_sorted_str (x : String) : List String → List String
  | [] => [x]
  | y :: ys => if str_lt y x then y :: insert_sorted_str x ys else x :: y :: ys

def sort_strings : List String → List String
  | [] => []
  | x :: xs => insert_sorted_str x (sort_strings xs)

/-- The grouping key `(normalized subject, tuple(sorted(participants)))`
(unified_backend.py:1092). -/
def msg_key (m : ParsedMessage) : String × List String :=
  (normalize_subject m.subject, sort_strings m.participants)

/-- `thread_groups[key].append(timestamp)` on the insertion-ordered
defaultdict. -/
def add_to_groups (gs : List ((String × List String) × List Rat))
    (k : String × List String) (t : Rat) : List ((String × List String) × List Rat) :=
  match gs with
  | [] => [(k, [t])]
  | (k2, ts) :: rest =>
      if k2 = k then (k2, ts ++ [t]) :: rest
      else (k2, ts) :: add_to_groups rest k t

/-- The fully built `thread_groups` mapping, in key-first-seen order. -/
def thread_groups (msgs : List ParsedMessage) :
    List ((String × List String) × List Rat) :=
  msgs.foldl (fun gs m => add_to_groups gs (msg_key m) m.timestamp) []

/-- A character of `\w` in the subject-word scan (`re.findall(r'\w+', .)`). -/
def is_word_char (c : Char) : Bool :=
  (48 ≤ c.toNat && c.toNat ≤ 57) || (65 ≤ c.toNat && c.toNat ≤ 90) ||
    (97 ≤ c.toNat && c.toNat ≤ 122) || c.toNat == 95

/-- Maximal `\w+` runs of a char list, in order. -/
def words_aux : List Char → List Char → List String
  | cur, [] => if cur.isEmpty then [] else [cur.reverse.asString]
  | cur, c :: rest =>
      if is_word_char c then words_aux (c :: cur) rest
      else if cur.isEmpty then words_aux [] rest
      else cur.reverse.asString :: words_aux [] rest

/-- `re.findall(r'\w+', s)`. -/
def find_words (s : String) : List String := words_aux [] s.toList

/-- Occurrences of a word in the word list (`word_freq[w]`). -/
def count_word (w : String) (ws : List String) : Nat :=
  (ws.filter (fun x => x == w)).length

/-- The dict keys of `word_freq`: words in first-occurrence order. -/
def dedup_aux (seen : List String) : List String → List String
  | [] => []
  | w :: rest =>
      if seen.contains w then dedup_aux seen rest
      else w :: dedup_aux (seen ++ [w]) rest

def dedup_first (ws : List String) : List String := dedup_aux [] ws

/-- Python's stable `sorted(..., reverse=True)` by count: an earlier key
stays before later keys of equal count. -/
def insert_desc (counts : String → Nat) (x : String) : List String → List String
  | [] => [x]
  | y :: ys => if counts y > counts x then y :: insert_desc counts x ys else x :: y :: ys

def sort_desc (counts : String → Nat) : List String → List String
  | [] => []
  | x :: xs => insert_desc counts x (sort_desc counts xs)

/-- The `key_topics` of a group subject: top-5 most frequent subject
words, ties in first-seen order (unified_backend.py:1110-1115). -/
def key_topics_of (subject : String) : List String :=
  (sort_desc (fun w => count_word w (find_words subject))
    (dedup_first (find_words subject))).take 5

/-- Stand-in for the external `hashlib.sha1` hex digest used for
`thread_id` (unified_backend.py:1116): an explicit deterministic
function; no claim depends on its values. -/
def sha1_hex (s : String) : String := "sha1:" ++ s

/-- Python's `' '.join(...)`. -/
def join_with (sep : String) : List String → String
  | [] => ""
  | [x] => x
  | x :: y :: xs => x ++ sep ++ join_with sep (y :: xs)

/-- Python's `min` over a non-empty list of floats (0 for the empty list,
which the code never reaches). -/
def rats_min : List Rat → Rat
  | [] => 0
  | t :: ts => ts.foldl rat_min t

/-- Python's `max` over a non-empty list of floats. -/
def rats_max : List Rat → Rat
  | [] => 0
  | t :: ts => ts.foldl rat_max t

/-- The `CommunicationThread` built for one group
(unified_backend.py:1104-1126). -/
def mk_thread (k : String × List String) (timestamps : List Rat) : CommunicationThread :=
  { thread_id := sha1_hex (k.1 ++ join_with " " k.2)
    subject := k.1
    participants := k.2
    start_date := rats_min timestamps
    end_date := rats_max timestamps
    message_count := timestamps.length
    key_topics := key_topics_of k.1 }

/-- The grouping core of `extract_communication_threads`: one thread per
non-empty group, in key-first-seen order. -/
def extract_communication_threads (msgs : List ParsedMessage) : List CommunicationThread :=
  (thread_groups msgs).filterMap (fun g =>
    if g.2.isEmpty then none else some (mk_thread g.1 g.2))

/-- The timestamps of the messages with a given grouping key, in message
order. -/
def group_ts (msgs : List ParsedMessage) (k : String × List String) : List Rat :=
  (msgs.filter (fun m => decide (msg_key m = k))).map ParsedMessage.timestamp

/-- The normalization the specification describes: lowercase, then strip
ONE leading reply/forward marker once from the start. -/
def claim_normalize_subject (subject : String) : String :=
  let s := str_strip (str_lower subject)
  if str_starts s "re:" then str_strip ((s.toList.drop 3).asString)
  else if str_starts s "fw:" then str_strip ((s.toList.drop 3).asString)
  else if str_starts s "fwd:" then str_strip ((s.toList.drop 4).asString)
  else s

/-- Association lookup on the group list. -/
def lookup_group : List ((String × List String) × List Rat) →
    (String × List String) → Option (List Rat)
  | [], _ => none
  | (k2, ts) :: rest, k => if k2 = k then some ts else lookup_group rest k

/-- Append a batch of timestamps to an optional group. -/
def opt_app : Option (List Rat) → List Rat → Option (List Rat)
  | some ts, l => some (ts ++ l)
  | none, l => if l.isEmpty then none else some l

/-- The `Kickoff` / `Re: Kickoff` fixture of the claim. -/
def c7_msgs : List ParsedMessage :=
  [⟨"Kickoff", ["a@x.com"], 1⟩, ⟨"Re: Kickoff", ["a@x.com"], 2⟩]

def c7_key : String × List String := ("kickoff", ["a@x.com"])

theorem char_list_lt_asymm : ∀ {x y : List Char},
    char_list_lt x y = true → char_list_lt y x = false := by
  intro x
  induction x with
  | nil => intro y h; cases y <;> simp [char_list_lt] at h ⊢
  | cons a as ih =>
    intro y h
    cases y with
    | nil => simp [char_list_lt] at h
    | cons b bs =>
      simp only [char_list_lt] at h ⊢
      by_cases hab : a.toNat < b.toNat
      · rw [if_neg (Nat.not_lt.mpr (Nat.le_of_lt hab)), if_pos hab]
      · rw [if_neg hab] at h
        by_cases hba : b.toNat < a.toNat
        · rw [if_pos hba] at h; exact absurd h (by simp)
        · rw [if_neg hba] at h
          rw [if_neg hba, if_neg hab]
          exact ih h

theorem char_list_le_trans : ∀ {x y z : List Char},
    char_list_lt y x = false → char_list_lt z y = false → char_list_lt z x = false := by
  intro x
  induction x with
  | nil =>
    intro y z _ _
    cases z <;> simp [char_list_lt]
  | cons a as ih =>
    intro y z hba hcb
    cases y with
    | nil => simp [char_list_lt] at hba
    | cons b bs =>
      cases z with
      | nil => simp [char_list_lt] at hcb
      | cons c cs =>
        simp only [char_list_lt] at hba hcb ⊢
        by_cases hba1 : b.toNat < a.toNat
        · rw [if_pos hba1] at hba; exact absurd hba (by simp)
        · rw [if_neg hba1] at hba
          by_cases hcb1 : c.toNat < b.toNat
          · rw [if_pos hcb1] at hcb; exact absurd hcb (by simp)
          · rw [if_neg hcb1] at hcb
            have hca1 : ¬ c.toNat < a.toNat := by omega
            rw [if_neg hca1]
            by_cases hab : a.toNat < b.toNat
            · have hac : a.toNat < c.toNat := by omega
              rw [if_pos hac]
            · rw [if_neg hab] at hba
              by_cases hbc : b.toNat < c.toNat
              · have hac : a.toNat < c.toNat := by omega
                rw [if_pos hac]
              · rw [if_neg hbc] at hcb
                have hac : ¬ a.toNat < c.toNat := by omega
                rw [if_neg hac]
                exact ih hba hcb

theorem key_lt_asymm {a b : Bool × String} (h : key_lt a b = true) :
    key_lt b a = false := by
  rcases a with ⟨x, s⟩; rcases b with ⟨y, t⟩
  cases x <;> cases y <;> simp [key_lt, str_lt] at h ⊢ <;>
    exact char_list_lt_asymm h

theorem key_le_trans {a b c : Bool × String} (hba : key_lt b a = false)
    (hcb : key_lt c b = false) : key_lt c a = false := by
  rcases a with ⟨x, s⟩; rcases b with ⟨y, t⟩; rcases c with ⟨z, u⟩
  cases x <;> cases y <;> cases z <;> simp [key_lt, str_lt] at hba hcb ⊢ <;>
    exact char_list_le_trans hba hcb

theorem key_insert_perm {α : Type} (key : α → Bool × String) (x : α) (l : List α) :
    (key_insert key x l).Perm (x :: l) := by
  induction l with
  | nil => exact List.Perm.refl _
  | cons y ys ih =>
    simp only [key_insert]
    by_cases h : key_lt (key y) (key x) = true
    · rw [if_pos h]
      exact (ih.cons y).trans (List.Perm.swap x y ys)
    · rw [if_neg h]

theorem key_sort_perm {α : Type} (key : α → Bool × String) (l : List α) :
    (key_sort key l).Perm l := by
  induction l with
  | nil => exact List.Perm.refl _
  | cons x xs ih =>
    exact (key_insert_perm key x (key_sort key xs)).trans (ih.cons x)

theorem key_insert_pairwise {α : Type} (key : α → Bool × String) (x : α) (l : List α)
    (h : l.Pairwise (fun a b => key_lt (key b) (key a) = false)) :
    (key_insert key x l).Pairwise (fun a b => key_lt (key b) (key a) = false) := by
  induction l with
  | nil => simp [key_insert]
  | cons y ys ih =>
    rcases List.pairwise_cons.mp h with ⟨hy, hys⟩
    simp only [key_insert]
    by_cases hlt : key_lt (key y) (key x) = true
    · rw [if_pos hlt]
      refine List.pairwise_cons.mpr ⟨?_, ih hys⟩
      intro z hz
      rcases List.mem_cons.mp ((key_insert_perm key x ys).mem_iff.mp hz) with hzx | hzy
      · subst hzx; exact key_lt_asymm hlt
      · exact hy z hzy
    · rw [if_neg hlt]
      have hxy : key_lt (key y) (key x) = false := by
        simp only [Bool.not_eq_true] at hlt; exact hlt
      refine List.pairwise_cons.mpr ⟨?_, h⟩
      intro z hz
      rcases List.mem_cons.mp hz with hzy | hzy
      · subst hzy; exact hxy
      · exact key_le_trans hxy (hy z hzy)

theorem key_sort_pairwise {α : Type} (key : α → Bool × String) (l : List α) :
    (key_sort key l).Pairwise (fun a b => key_lt (key b) (key a) = false) := by
  induction l with
  | nil => simp [key_sort]
  | cons x xs ih => exact key_insert_pairwise key x (key_sort key xs) ih

/-! ### Scanner lemmas -/

theorem foldl_add_map {α : Type} (f : α → Nat) :
    ∀ (l : List α) (n : Nat), l.foldl (fun s r => s + f r) n = n + (l.map f).sum
  | [], n => by simp
  | x :: xs, n => by
      simp only [List.foldl, List.map, List.sum_cons]
      rw [foldl_add_map f xs (n + f x)]
      omega

/-- Sorting the processed items does not change any aggregated sum. -/
theorem key_sort_filterMap_sum {α β : Type} (key : α → Bool × String)
    (f : α → Option β) (g : β → Nat) (l : List α) :
    (((key_sort key l).filterMap f).map g).sum = ((l.filterMap f).map g).sum :=
  (((key_sort_perm key l).filterMap f).map g).sum_eq

/-- Unfolding equation for `scan_folder` on a directory node. -/
theorem scan_folder_dir (isRoot : Bool) (depth : Nat)
    (name pathStr relPath : String) (created modified : Rat) (listOk : Bool)
    (entries : List FSNode) :
    scan_folder isRoot depth (.dir name pathStr relPath created modified listOk entries) =
      if listOk then
        some (.mk (if isRoot then "root" else name)
                  (if isRoot then "" else relPath)
                  (((key_sort (fun it : ScanItem => it.1) (scan_entries depth entries)).filterMap
                      Prod.snd).foldl (fun s r => s + r.2.1) 0)
                  (((key_sort (fun it : ScanItem => it.1) (scan_entries depth entries)).filterMap
                      Prod.snd).foldl (fun c r => c + r.2.2) 0)
                  created modified depth
                  (((key_sort (fun it : ScanItem => it.1) (scan_entries depth entries)).filterMap
                      Prod.snd).map Prod.fst))
      else none := rfl

/-- Unfolding equation for `scan_entries` on a non-empty listing. -/
theorem scan_entries_cons (depth : Nat) (e : FSNode) (rest : List FSNode) :
    scan_entries depth (e :: rest) =
      (scan_key e,
        if should_ignore e.nodePath e.nodeName then none
        else
          match e with
          | .file _ _ _ _ _ _ _ _ _ =>
              match get_file_info e (depth + 1) with
              | some fi => some (.file fi, fi.size, 1)
              | none => none
          | .dir _ _ _ _ _ _ _ =>
              match scan_folder false (depth + 1) e with
              | some fo => some (.folder fo, fo.size, fo.file_count)
              | none => none) :: scan_entries depth rest := rfl

/-- `_scan_folder` fails on a directory exactly when its own listing fails. -/
theorem scan_folder_none (isRoot : Bool) (depth : Nat)
    (name pathStr relPath : String) (created modified : Rat) (listOk : Bool)
    (entries : List FSNode) :
    scan_folder isRoot depth (.dir name pathStr relPath created modified listOk entries) = none ↔
      listOk = false := by
  rw [scan_folder_dir]
  cases listOk <;> simp


theorem foldl_add_count : ∀ (l : List (ChildEntry × Nat × Nat)) (n : Nat),
    l.foldl (fun c r => c + r.2.2) n = n + (l.map (fun r => r.2.2)).sum
  | [], n => by simp
  | x :: xs, n => by
      simp only [List.foldl, List.map, List.sum_cons]
      rw [foldl_add_count xs (n + x.2.2)]
      omega

theorem foldl_add_size : ∀ (l : List (ChildEntry × Nat × Nat)) (n : Nat),
    l.foldl (fun s r => s + r.2.1) n = n + (l.map (fun r => r.2.1)).sum
  | [], n => by simp
  | x :: xs, n => by
      simp only [List.foldl, List.map, List.sum_cons]
      rw [foldl_add_size xs (n + x.2.1)]
      omega

theorem filterMap_snd_cons_some {k : Bool × String} {v : ChildEntry × Nat × Nat}
    {t : List ScanItem} :
    List.filterMap Prod.snd ((k, some v) :: t) = v :: List.filterMap Prod.snd t := rfl

theorem filterMap_snd_cons_none {k : Bool × String} {t : List ScanItem} :
    List.filterMap Prod.snd ((k, none) :: t) = List.filterMap Prod.snd t := rfl

/-- Scan-loop step for an ignored item. -/
theorem scan_entries_cons_ignored {e : FSNode} {rest : List FSNode} {depth : Nat}
    (h : should_ignore e.nodePath e.nodeName = true) :
    scan_entries depth (e :: rest) = (scan_key e, none) :: scan_entries depth rest := by
  rw [scan_entries_cons, if_pos h]

/-- Scan-loop step for a non-ignored file whose metadata is readable. -/
theorem scan_entries_cons_file {fname fpath fmime fdigest : String} {fsize : Nat}
    {fcreated fmodified : Rat} {readOk : Bool} {rest : List FSNode} {depth : Nat}
    (h : should_ignore fpath fname = false) :
    scan_entries depth (.file fname fpath fsize fmime fdigest fcreated fmodified true readOk :: rest) =
      ((true, str_lower fname),
        some (.file { name := fname
                      path := fname
                      size := fsize
                      mime_type := if fmime = "" then "application/octet-stream" else fmime
                      file_hash := get_file_hash fdigest readOk
                      created := fcreated
                      modified := fmodified
                      depth := depth + 1 }, fsize, 1)) :: scan_entries depth rest := by
  rw [scan_entries_cons]
  simp only [FSNode.nodePath, FSNode.nodeName, h, Bool.false_eq_true, if_false,
    get_file_info, eq_self_iff_true, if_true, scan_key, FSNode.isFileEntry]

/-- Scan-loop step for a non-ignored file whose metadata is unreadable. -/
theorem scan_entries_cons_file_bad {fname fpath fmime fdigest : String} {fsize : Nat}
    {fcreated fmodified : Rat} {readOk : Bool} {rest : List FSNode} {depth : Nat}
    (h : should_ignore fpath fname = false) :
    scan_entries depth (.file fname fpath fsize fmime fdigest fcreated fmodified false readOk :: rest) =
      ((true, str_lower fname), none) :: scan_entries depth rest := by
  rw [scan_entries_cons]
  simp only [FSNode.nodePath, FSNode.nodeName, h, Bool.false_eq_true, if_false,
    get_file_info, scan_key, FSNode.isFileEntry]

/-- Scan-loop step for a non-ignored subdirectory that scanned successfully. -/
theorem scan_entries_cons_dir {dname dpath drel : String} {dcreated dmodified : Rat}
    {listOk : Bool} {dentries : List FSNode} {rest : List FSNode} {depth : Nat}
    {fo : FolderInfo}
    (h : should_ignore dpath dname = false)
    (hscan : scan_folder false (depth + 1)
      (.dir dname dpath drel dcreated dmodified listOk dentries) = some fo) :
    scan_entries depth (.dir dname dpath drel dcreated dmodified listOk dentries :: rest) =
      ((false, str_lower dname), some (.folder fo, fo.size, fo.file_count)) ::
        scan_entries depth rest := by
  rw [scan_entries_cons]
  simp only [FSNode.nodePath, FSNode.nodeName, h, Bool.false_eq_true, if_false,
    hscan, scan_key, FSNode.isFileEntry]

/-- Scan-loop step for a non-ignored subdirectory whose scan failed. -/
theorem scan_entries_cons_dir_bad {dname dpath drel : String} {dcreated dmodified : Rat}
    {listOk : Bool} {dentries : List FSNode} {rest : List FSNode} {depth : Nat}
    (h : should_ignore dpath dname = false)
    (hscan : scan_folder false (depth + 1)
      (.dir dname dpath drel dcreated dmodified listOk dentries) = none) :
    scan_entries depth (.dir dname dpath drel dcreated dmodified listOk dentries :: rest) =
      ((false, str_lower dname), none) :: scan_entries depth rest := by
  rw [scan_entries_cons]
  simp only [FSNode.nodePath, FSNode.nodeName, h, Bool.false_eq_true, if_false,
    hscan, scan_key, FSNode.isFileEntry]

mutual
/-- The scanned `file_count` and `size` equal the specification-side
aggregates over the input tree. -/
theorem scan_folder_spec : ∀ (n : FSNode) (isRoot : Bool) (depth : Nat) (fi : FolderInfo),
    scan_folder isRoot depth n = some fi →
    fi.file_count = spec_count n ∧ fi.size = spec_size n
  | .file _ _ _ _ _ _ _ _ _, _, _, _, h => by simp [scan_folder] at h
  | .dir name pathStr relPath created modified listOk entries, isRoot, depth, fi, h => by
      rw [scan_folder_dir] at h
      cases listOk with
      | false => simp at h
      | true =>
        rw [if_pos rfl] at h
        obtain ⟨ih1, ih2⟩ := scan_entries_spec entries depth
        injection h with h2
        subst h2
        have hsc : spec_count (.dir name pathStr relPath created modified true entries) =
            spec_count_list entries := by simp [spec_count]
        have hss : spec_size (.dir name pathStr relPath created modified true entries) =
            spec_size_list entries := by simp [spec_size]
        refine ⟨?_, ?_⟩
        · rw [hsc]
          simp only [FolderInfo.file_count]
          rw [foldl_add_count, key_sort_filterMap_sum (fun it : ScanItem => it.1) Prod.snd
            (fun r => r.2.2), ih1]
          omega
        · rw [hss]
          simp only [FolderInfo.size]
          rw [foldl_add_size, key_sort_filterMap_sum (fun it : ScanItem => it.1) Prod.snd
            (fun r => r.2.1), ih2]
          omega

/-- The per-item contributions collected by the scan loop sum to the
specification-side aggregates over the listing. -/
theorem scan_entries_spec : ∀ (es : List FSNode) (depth : Nat),
    (((scan_entries depth es).filterMap Prod.snd).map (fun r => r.2.2)).sum = spec_count_list es ∧
    (((scan_entries depth es).filterMap Prod.snd).map (fun r => r.2.1)).sum = spec_size_list es
  | [], _ => by simp [scan_entries, spec_count_list, spec_size_list]
  | e :: rest, depth => by
      obtain ⟨ih1, ih2⟩ := scan_entries_spec rest depth
      by_cases hig : should_ignore e.nodePath e.nodeName = true
      · rw [scan_entries_cons_ignored hig]
        rw [filterMap_snd_cons_none]
        simp only [spec_count_list, spec_size_list, hig, eq_self_iff_true, if_true]
        refine ⟨?_, ?_⟩ <;> omega
      · rw [Bool.not_eq_true] at hig
        cases e with
        | file fname fpath fsize fmime fdigest fcreated fmodified statOk readOk =>
          simp only [FSNode.nodePath, FSNode.nodeName] at hig
          cases statOk with
          | false =>
            rw [scan_entries_cons_file_bad hig, filterMap_snd_cons_none]
            simp only [spec_count_list, spec_size_list, FSNode.nodePath, FSNode.nodeName,
              hig, Bool.false_eq_true, if_false, spec_count, spec_size]
            refine ⟨?_, ?_⟩ <;> omega
          | true =>
            rw [scan_entries_cons_file hig, filterMap_snd_cons_some]
            simp only [spec_count_list, spec_size_list, FSNode.nodePath, FSNode.nodeName,
              hig, Bool.false_eq_true, if_false, spec_count, spec_size, eq_self_iff_true,
              if_true, List.map_cons, List.sum_cons]
            refine ⟨?_, ?_⟩ <;> omega
        | dir dname dpath drel dcreated dmodified listOk dentries =>
          simp only [FSNode.nodePath, FSNode.nodeName] at hig
          cases hscan : scan_folder false (depth + 1)
              (.dir dname dpath drel dcreated dmodified listOk dentries) with
          | none =>
            have hok : listOk = false := (scan_folder_none _ _ _ _ _ _ _ _ _).mp hscan
            subst hok
            rw [scan_entries_cons_dir_bad hig hscan, filterMap_snd_cons_none]
            simp only [spec_count_list, spec_size_list, FSNode.nodePath, FSNode.nodeName,
              hig, Bool.false_eq_true, if_false, spec_count, spec_size]
            refine ⟨?_, ?_⟩ <;> omega
          | some fo =>
            obtain ⟨hc, hs⟩ := scan_folder_spec _ false (depth + 1) fo hscan
            rw [scan_entries_cons_dir hig hscan, filterMap_snd_cons_some]
            simp only [spec_count_list, spec_size_list, FSNode.nodePath, FSNode.nodeName,
              hig, Bool.false_eq_true, if_false, List.map_cons, List.sum_cons]
            refine ⟨?_, ?_⟩ <;> omega
termination_by structural es => es
end

theorem reorder_name_path {a b : FSNode} (h : Reorder a b) :
    a.nodeName = b.nodeName ∧ a.nodePath = b.nodePath := by
  cases h <;> exact ⟨rfl, rfl⟩

/-- Reordering directory entries anywhere in the tree changes neither the
specification count nor the specification size. -/
theorem reorder_agg {a b : FSNode} (h : Reorder a b) :
    spec_count a = spec_count b ∧ spec_size a = spec_size b := by
  refine @Reorder.rec
    (fun a b _ => spec_count a = spec_count b ∧ spec_size a = spec_size b)
    (fun l l2 _ => spec_count_list l = spec_count_list l2 ∧
      spec_size_list l = spec_size_list l2)
    ?_ ?_ ?_ ?_ ?_ ?_ a b h
  · intro name pathStr size mime digest created modified statOk readOk
    exact ⟨rfl, rfl⟩
  · intro name pathStr relPath created modified listOk entries entries2 hre ih
    exact ⟨by simp only [spec_count]; rw [ih.1], by simp only [spec_size]; rw [ih.2]⟩
  · exact ⟨rfl, rfl⟩
  · intro x y l l2 hxy hll ihx ihl
    obtain ⟨hn, hp⟩ := reorder_name_path hxy
    constructor
    · simp only [spec_count_list]; rw [hn, hp, ihx.1, ihl.1]
    · simp only [spec_size_list]; rw [hn, hp, ihx.2, ihl.2]
  · intro x y l
    constructor
    · simp only [spec_count_list]; omega
    · simp only [spec_size_list]; omega
  · intro l1 l2 l3 h1 h2 ih1 ih2
    exact ⟨ih1.1.trans ih2.1, ih1.2.trans ih2.2⟩

/-- A successful non-root `_scan_folder` keeps the directory's name. -/
theorem scan_folder_name {dname dpath drel : String} {dcreated dmodified : Rat}
    {listOk : Bool} {dentries : List FSNode} {fo : FolderInfo} {depth : Nat}
    (h : scan_folder false depth
      (.dir dname dpath drel dcreated dmodified listOk dentries) = some fo) :
    fo.name = dname := by
  rw [scan_folder_dir] at h
  cases listOk with
  | false => simp at h
  | true =>
    rw [if_pos rfl] at h
    injection h with h2
    subst h2
    simp [FolderInfo.name]

/-- Every item the scan loop emits carries the sort key of the child entry
it contains. -/
theorem scan_entries_key : ∀ (es : List FSNode) (depth : Nat) (p : ScanItem),
    p ∈ scan_entries depth es →
    ∀ c sz fc, p.2 = some (c, sz, fc) → p.1 = child_key c := by
  intro es
  induction es with
  | nil => intro depth p hp; simp [scan_entries] at hp
  | cons e rest ih =>
    intro depth p hp c sz fc hsome
    by_cases hig : should_ignore e.nodePath e.nodeName = true
    · rw [scan_entries_cons_ignored hig] at hp
      rcases List.mem_cons.mp hp with hph | hpt
      · subst hph; simp at hsome
      · exact ih depth p hpt c sz fc hsome
    · rw [Bool.not_eq_true] at hig
      cases e with
      | file fname fpath fsize fmime fdigest fcreated fmodified statOk readOk =>
        simp only [FSNode.nodePath, FSNode.nodeName] at hig
        cases statOk with
        | false =>
          rw [scan_entries_cons_file_bad hig] at hp
          rcases List.mem_cons.mp hp with hph | hpt
          · subst hph; simp at hsome
          · exact ih depth p hpt c sz fc hsome
        | true =>
          rw [scan_entries_cons_file hig] at hp
          rcases List.mem_cons.mp hp with hph | hpt
          · subst hph
            simp only [Option.some.injEq, Prod.mk.injEq] at hsome
            obtain ⟨hc1, -, -⟩ := hsome
            subst hc1
            rfl
          · exact ih depth p hpt c sz fc hsome
      | dir dname dpath drel dcreated dmodified listOk dentries =>
        simp only [FSNode.nodePath, FSNode.nodeName] at hig
        cases hscan : scan_folder false (depth + 1)
            (.dir dname dpath drel dcreated dmodified listOk dentries) with
        | none =>
          rw [scan_entries_cons_dir_bad hig hscan] at hp
          rcases List.mem_cons.mp hp with hph | hpt
          · subst hph; simp at hsome
          · exact ih depth p hpt c sz fc hsome
        | some fo =>
          rw [scan_entries_cons_dir hig hscan] at hp
          rcases List.mem_cons.mp hp with hph | hpt
          · subst hph
            simp only [Option.some.injEq, Prod.mk.injEq] at hsome
            obtain ⟨hc1, -, -⟩ := hsome
            subst hc1
            have hname := scan_folder_name hscan
            simp [child_key, ChildEntry.isFile, ChildEntry.entryName, hname]
          · exact ih depth p hpt c sz fc hsome

theorem pairwise_filterMap_wf {α β : Type} (f : α → Option β) (R : α → α → Prop)
    (S : β → β → Prop) (W : α → Prop)
    (hf : ∀ a b x y, W a → W b → R a b → f a = some x → f b = some y → S x y) :
    ∀ l : List α, (∀ p ∈ l, W p) → l.Pairwise R → (l.filterMap f).Pairwise S := by
  intro l
  induction l with
  | nil => intro _ _; simp
  | cons a t ih =>
    intro hW hP
    rcases List.pairwise_cons.mp hP with ⟨ha, ht⟩
    have hWt : ∀ p ∈ t, W p := fun p hp => hW p (List.mem_cons_of_mem a hp)
    cases hfa : f a with
    | none =>
      rw [List.filterMap_cons_none hfa]
      exact ih hWt ht
    | some x =>
      rw [List.filterMap_cons_some hfa]
      refine List.pairwise_cons.mpr ⟨?_, ih hWt ht⟩
      intro y hy
      obtain ⟨b, hb, hfb⟩ := List.mem_filterMap.mp hy
      exact hf a b x y (hW a (List.mem_cons_self a t)) (hWt b hb) (ha b hb) hfa hfb

/-- The children of every `FolderInfo` the scanner produces are sorted by
the key `(is_file, name.lower())`: all folders first, then all files,
each group case-insensitively by name. -/
theorem scan_children_sorted (n : FSNode) (isRoot : Bool) (depth : Nat) (fi : FolderInfo)
    (h : scan_folder isRoot depth n = some fi) : fi.children.Pairwise child_le := by
  cases n with
  | file _ _ _ _ _ _ _ _ _ => simp [scan_folder] at h
  | dir name pathStr relPath created modified listOk entries =>
    rw [scan_folder_dir] at h
    cases listOk with
    | false => simp at h
    | true =>
      rw [if_pos rfl] at h
      injection h with h2
      subst h2
      simp only [FolderInfo.children]
      rw [List.map_filterMap]
      refine pairwise_filterMap_wf (fun r => Option.map Prod.fst r.2)
        (fun p q : ScanItem => key_lt q.1 p.1 = false) child_le
        (fun p : ScanItem => ∀ c sz fc, p.2 = some (c, sz, fc) → p.1 = child_key c)
        ?_ _ ?_ ?_
      · intro a b x y hWa hWb hab hfa hfb
        obtain ⟨ra, hra, hxa⟩ := Option.map_eq_some'.mp hfa
        obtain ⟨rb, hrb, hxb⟩ := Option.map_eq_some'.mp hfb
        have hka : a.1 = child_key x := by
          subst hxa
          exact hWa ra.1 ra.2.1 ra.2.2 (by rw [hra])
        have hkb : b.1 = child_key y := by
          subst hxb
          exact hWb rb.1 rb.2.1 rb.2.2 (by rw [hrb])
        show key_lt (child_key y) (child_key x) = false
        rw [← hka, ← hkb]
        exact hab
      · intro p hp
        have hp2 := (key_sort_perm (fun it : ScanItem => it.1) (scan_entries depth entries)).mem_iff.mp hp
        exact scan_entries_key entries depth p hp2
      · exact key_sort_pairwise (fun it : ScanItem => it.1) (scan_entries depth entries)

/-- C1, counterexample: scanning a directory holding the file `a.txt` and
the subfolder `b` yields children `[folder b, file a.txt]` — the folder
entry precedes the file entry, so the claimed files-before-folders
ordering is false on the code. -/
theorem c1_children_order_counterexample :
    (scan_folder true 0 c1_tree).map (fun fi => files_before_folders fi.children) =
        some false ∧
    (scan_folder true 0 c1_tree).map (fun fi => fi.children.map ChildEntry.isFile) =
        some [false, true] := by
  constructor
  · decide
  · decide

/-- C1 (amended): for every directory tree scanned, the children sequence
of every FolderNode produced by the scanner lists all folder children
sorted case-insensitively by name before all file children sorted
case-insensitively by name — the scanner sorts by `(is_file, name.lower())`
ascending, and `False < True` places folders first. -/
theorem c1_children_order (n : FSNode) (isRoot : Bool) (depth : Nat) (fi : FolderInfo)
    (h : scan_folder isRoot depth n = some fi) : fi.children.Pairwise child_le :=
  scan_children_sorted n isRoot depth fi h

theorem c1_children_order_witness :
    scan_folder true 0 c1_tree = some c1_result ∧ c1_result.children.Pairwise child_le :=
  ⟨rfl, c1_children_order c1_tree true 0 c1_result rfl⟩

/-- C2: every FolderNode returned by the scanner has `file_count` equal to
the number of non-ignored, readable files in its descendant subtree and
`size` equal to the sum of their sizes, and both are unchanged under any
reordering of directory-entry enumeration anywhere in the tree. -/
theorem c2_folder_aggregates (n : FSNode) (isRoot : Bool) (depth : Nat) (fi : FolderInfo)
    (h : scan_folder isRoot depth n = some fi) :
    (fi.file_count = spec_count n ∧ fi.size = spec_size n) ∧
    ∀ (n2 : FSNode) (isRoot2 : Bool) (depth2 : Nat) (fi2 : FolderInfo),
      Reorder n n2 → scan_folder isRoot2 depth2 n2 = some fi2 →
      fi2.file_count = fi.file_count ∧ fi2.size = fi.size := by
  have h1 := scan_folder_spec n isRoot depth fi h
  refine ⟨h1, ?_⟩
  intro n2 isRoot2 depth2 fi2 hre h2
  have h3 := scan_folder_spec n2 isRoot2 depth2 fi2 h2
  have h4 := reorder_agg hre
  exact ⟨by rw [h3.1, ← h4.1, h1.1], by rw [h3.2, ← h4.2, h1.2]⟩

theorem c2_folder_aggregates_witness :
    (c2_result.file_count = spec_count c2_tree ∧ c2_result.size = spec_size c2_tree) ∧
    (c2_result2.file_count = c2_result.file_count ∧ c2_result2.size = c2_result.size) := by
  have h := c2_folder_aggregates c2_tree true 0 c2_result rfl
  exact ⟨h.1, h.2 c2_tree2 true 0 c2_result2
    (Reorder.dir _ _ _ _ _ _ _ _ (ReorderList.swap _ _ _)) rfl⟩

/-- C8: `scan_directory` raises a hard error exactly when the root does not
exist or is not a directory; a listable directory always scans to a
result, a file whose metadata is readable but whose contents are not gets
the sentinel fingerprint `"unknown"`, and a file whose metadata is
unreadable is skipped with zero contribution to the aggregates. -/
theorem c8_failure_policy :
    (∀ fs : RootFS, (∃ e, scan_directory fs = .error e) ↔
      fs.pathExists = false ∨ fs.isDir = false) ∧
    (∀ (dname dpath drel : String) (dc dm : Rat) (entries : List FSNode)
        (isRoot : Bool) (depth : Nat),
      ∃ fi, scan_folder isRoot depth (.dir dname dpath drel dc dm true entries) = some fi) ∧
    (∀ (fname fpath fmime fdigest : String) (fsize : Nat) (fc fm : Rat) (depth : Nat),
      ∃ fi, get_file_info (.file fname fpath fsize fmime fdigest fc fm true false) depth =
          some fi ∧ fi.file_hash = "unknown") ∧
    (∀ (fname fpath fmime fdigest : String) (fsize : Nat) (fc fm : Rat)
        (readOk : Bool) (depth : Nat),
      get_file_info (.file fname fpath fsize fmime fdigest fc fm false readOk) depth = none ∧
      spec_count (.file fname fpath fsize fmime fdigest fc fm false readOk) = 0 ∧
      spec_size (.file fname fpath fsize fmime fdigest fc fm false readOk) = 0) := by
  refine ⟨?_, ?_, ?_, ?_⟩
  · intro fs
    unfold scan_directory
    cases hex : fs.pathExists with
    | false => simp
    | true =>
      cases hdir : fs.isDir with
      | false => simp
      | true => simp
  · intro dname dpath drel dc dm entries isRoot depth
    rw [scan_folder_dir, if_pos rfl]
    exact ⟨_, rfl⟩
  · intro fname fpath fmime fdigest fsize fc fm depth
    refine ⟨_, rfl, ?_⟩
    simp [get_file_info, get_file_hash]
  · intro fname fpath fmime fdigest fsize fc fm readOk depth
    exact ⟨rfl, rfl, rfl⟩

/-- C9: the ignore check returns true whenever a configured non-wildcard
pattern occurs as a substring anywhere in the full path string, and a file
such as `my_environment.txt` (whose name contains the pattern `env` inside
a longer word) is excluded from the scan and from the size/count
aggregation. -/
theorem c9_ignore_substring :
    (∀ pat ∈ ignore_patterns, str_starts pat "*" = false →
      ∀ pathStr name : String, str_contains pathStr pat = true →
        should_ignore pathStr name = true) ∧
    (scan_folder true 0 c9_tree).map
        (fun fi => (fi.file_count, fi.size, fi.children.length)) = some (0, 0, 0) := by
  constructor
  · intro pat hpat hw pathStr name hsub
    unfold should_ignore
    rw [List.any_eq_true]
    refine ⟨pat, hpat, ?_⟩
    rw [if_neg (by simp [hw]), hsub]
    simp
  · decide

theorem c9_ignore_substring_witness :
    should_ignore "/r/my_environment.txt" "my_environment.txt" = true :=
  c9_ignore_substring.1 "env" (by simp [ignore_patterns]) (by decide)
    "/r/my_environment.txt" "my_environment.txt" (by decide)

/-- C4: the confidence of a candidate milestone equals 0.5, plus 0.3 if the
category is deadline or meeting and the matched span contains a numeral,
plus 0.2 if the full text contains a project-vocabulary keyword, minus 0.2
if the matched span is shorter than 20 characters, clamped to [0, 1]; in
particular the result always lies in [0, 1]. -/
theorem c4_confidence_rule (category milestone_text context : String) :
    calculate_confidence category milestone_text context =
      rat_max 0 (rat_min 1 ((1/2 : Rat)
        + (if (category == "deadline" || category == "meeting") &&
             contains_digit milestone_text then 3/10 else 0)
        + (if project_keywords.any (fun w => str_contains (str_lower context) w) then
             2/10 else 0)
        - (if str_len milestone_text < 20 then 2/10 else 0))) ∧
    0 ≤ calculate_confidence category milestone_text context ∧
    calculate_confidence category milestone_text context ≤ 1 := by
  unfold calculate_confidence
  dsimp only
  split_ifs <;>
    exact ⟨by norm_num [rat_max, rat_min], by norm_num [rat_max, rat_min],
      by norm_num [rat_max, rat_min]⟩

theorem filterMap_skip {α β : Type} (q : α → Prop) [DecidablePred q] (g : α → β) :
    ∀ l : List α, (l.filterMap (fun m => if q m then none else some (g m))) =
      (l.filter (fun m => decide (¬ q m))).map g := by
  intro l
  induction l with
  | nil => simp
  | cons x xs ih =>
    by_cases hx : q x
    · simp [hx, List.filterMap_cons, List.filter_cons, ih]
    · simp [hx, List.filterMap_cons, List.filter_cons, ih]

/-- C5: a regex match whose stripped captured span is shorter than 5
characters yields no milestone, and every match whose stripped span is at
least 5 characters yields exactly one candidate milestone, in match
order, with no deduplication across categories or patterns. -/
theorem c5_match_filtering (subject body : String) (timestamp : Rat)
    (participants : List String) (source_id : String) (file_refs : List String)
    (ms : List PatternMatch)
    (hne : (str_strip (subject ++ "\n\n" ++ body) == "") = false) :
    extract_milestones_from_content subject body timestamp participants source_id
        file_refs ms =
      (ms.filter (fun m => decide (5 ≤ str_len (str_strip m.captured)))).map
        (mk_milestone subject body timestamp participants source_id file_refs) ∧
    (extract_milestones_from_content subject body timestamp participants source_id
        file_refs ms).length =
      (ms.filter (fun m => decide (5 ≤ str_len (str_strip m.captured)))).length := by
  have h1 : extract_milestones_from_content subject body timestamp participants source_id
      file_refs ms =
      (ms.filter (fun m => decide (5 ≤ str_len (str_strip m.captured)))).map
        (mk_milestone subject body timestamp participants source_id file_refs) := by
    unfold extract_milestones_from_content
    rw [if_neg (by simp [hne])]
    rw [filterMap_skip (fun m : PatternMatch => str_len (str_strip m.captured) < 5)]
    congr 1
    apply List.filter_congr
    intro m _
    rw [decide_eq_decide]
    omega
  exact ⟨h1, by rw [h1, List.length_map]⟩

theorem c5_match_filtering_witness :
    (str_strip ("Plan" ++ "\n\n" ++ "need to finish the report") == "") = false ∧
    (extract_milestones_from_content "Plan" "need to finish the report" 0 [] "m.eml" []
      c5_ms).length = 1 := by
  have h := c5_match_filtering "Plan" "need to finish the report" 0 [] "m.eml" [] c5_ms
    (by decide)
  refine ⟨by decide, ?_⟩
  rw [h.2]
  decide

theorem le_rat_min {a b c : Rat} (ha : c ≤ a) (hb : c ≤ b) : c ≤ rat_min a b := by
  unfold rat_min
  split_ifs <;> assumption

theorem foldl_file_match : ∀ (mfs sfs : List String) (c : Rat),
    mfs.foldl (file_match_step sfs) c = c + (1/2) * (match_count mfs sfs : Rat)
  | [], sfs, c => by simp [match_count]
  | mf :: rest, sfs, c => by
      rw [List.foldl_cons]
      by_cases h : sfs.any (fun sf => str_contains (str_lower sf) (str_lower mf)) = true
      · rw [show file_match_step sfs c mf = c + 1/2 from by
          unfold file_match_step; rw [if_pos h]]
        rw [foldl_file_match rest sfs (c + 1/2)]
        have hmc : match_count (mf :: rest) sfs = match_count rest sfs + 1 := by
          simp [match_count, List.filter_cons, h]
        rw [hmc]
        push_cast
        ring
      · rw [Bool.not_eq_true] at h
        rw [show file_match_step sfs c mf = c from by
          unfold file_match_step; rw [if_neg (by simp [h])]]
        rw [foldl_file_match rest sfs c]
        have hmc : match_count (mf :: rest) sfs = match_count rest sfs := by
          simp [match_count, List.filter_cons, h]
        rw [hmc]

/-- C3: a (milestone, file_scan) pair more than 7 days apart yields no
correlation; within 7 days the strength is 0.5 per related-file reference
occurring case-insensitively in some name collected from the tree
payload, capped at 1.0, and the pair is kept exactly when the strength
exceeds 0.1 — in particular a milestone referencing `report.docx` paired
with a tree containing `Report.docx` scores at least 0.5. -/
theorem c3_correlation_rule (m : MilestoneEventRow) (f : FileEventRow) :
    (correlation_window < |m.timestamp - f.timestamp| → correlate_pair m f = none) ∧
    (|m.timestamp - f.timestamp| ≤ correlation_window →
      (m.related_files ≠ [] →
        calculate_file_correlation m.related_files f.file_data =
          rat_min 1 ((1/2) *
            (match_count m.related_files (extract_file_names f.file_data) : Rat))) ∧
      (correlate_pair m f ≠ none ↔
        1/10 < calculate_file_correlation m.related_files f.file_data) ∧
      (∀ cr, correlate_pair m f = some cr →
        cr.correlation_strength = calculate_file_correlation m.related_files f.file_data ∧
        cr.file_event_id = f.event_id ∧ cr.milestone_event_id = m.event_id) ∧
      ("report.docx" ∈ m.related_files →
        "Report.docx" ∈ extract_file_names f.file_data →
        1/2 ≤ calculate_file_correlation m.related_files f.file_data)) := by
  have hformula : m.related_files ≠ [] →
      calculate_file_correlation m.related_files f.file_data =
        rat_min 1 ((1/2) *
          (match_count m.related_files (extract_file_names f.file_data) : Rat)) := by
    intro hne
    unfold calculate_file_correlation
    rw [if_neg (by simp [hne])]
    dsimp only
    rw [foldl_file_match, zero_add]
  constructor
  · intro hout
    unfold correlate_pair
    rw [if_neg (not_le.mpr hout)]
  · intro hw
    refine ⟨hformula, ?_, ?_, ?_⟩
    · unfold correlate_pair
      rw [if_pos hw]
      dsimp only
      split_ifs with hs
      · simpa using hs
      · simpa using hs
    · intro cr hcr
      unfold correlate_pair at hcr
      rw [if_pos hw] at hcr
      dsimp only at hcr
      split_ifs at hcr with hs
      simp only [Option.some.injEq] at hcr
      subst hcr
      exact ⟨rfl, rfl, rfl⟩
    · intro hrep hscan
      have hne : m.related_files ≠ [] := by
        intro h0; rw [h0] at hrep; simp at hrep
      rw [hformula hne]
      have hsf : str_contains (str_lower "Report.docx") (str_lower "report.docx") = true := by
        decide
      have hmem : "report.docx" ∈ m.related_files.filter
          (fun mf => (extract_file_names f.file_data).any
            (fun sf => str_contains (str_lower sf) (str_lower mf))) :=
        List.mem_filter.mpr ⟨hrep, List.any_eq_true.mpr ⟨"Report.docx", hscan, hsf⟩⟩
      have hk : 1 ≤ match_count m.related_files (extract_file_names f.file_data) := by
        unfold match_count
        exact List.length_pos_of_mem hmem
      have hk2 : (1 : Rat) ≤
          (match_count m.related_files (extract_file_names f.file_data) : Rat) := by
        exact_mod_cast hk
      refine le_rat_min (by norm_num) ?_
      nlinarith

/-- C10: a milestone with an empty `related_files` list scores exactly 0.0
against any file_scan event, so no correlation involving it is ever
produced, regardless of temporal proximity or tree contents. -/
theorem c10_empty_related_files (fd : JValue) (mid : String) (ts : Rat)
    (f : FileEventRow) (file_events : List FileEventRow) :
    calculate_file_correlation [] fd = 0 ∧
    correlate_pair ⟨mid, ts, []⟩ f = none ∧
    milestone_correlations ⟨mid, ts, []⟩ file_events = [] := by
  have hpair : ∀ f2 : FileEventRow, correlate_pair ⟨mid, ts, []⟩ f2 = none := by
    intro f2
    unfold correlate_pair
    dsimp only
    split_ifs with h1 h2
    · exfalso
      norm_num [calculate_file_correlation] at h2
    · rfl
    · rfl
  refine ⟨rfl, hpair f, ?_⟩
  unfold milestone_correlations
  rw [List.filterMap_eq_nil_iff]
  intro f2 _
  exact hpair f2

theorem c3_correlation_rule_witness :
    |c3_m.timestamp - c3_f.timestamp| ≤ correlation_window ∧
    1/2 ≤ calculate_file_correlation c3_m.related_files c3_f.file_data ∧
    correlate_pair c3_m c3_f ≠ none := by
  have hw : |c3_m.timestamp - c3_f.timestamp| ≤ correlation_window := by
    norm_num [c3_m, c3_f, correlation_window]
  have h := (c3_correlation_rule c3_m c3_f).2 hw
  have hhalf := h.2.2.2 (by decide) (by decide)
  exact ⟨hw, hhalf, h.2.1.mpr (lt_of_lt_of_le (by norm_num) hhalf)⟩

theorem upsert_append (x y : List StoredEvent) (e : StoredEvent) :
    upsert_event (x ++ y) e =
      x.filter (fun r => !(r.event_id == e.event_id)) ++ upsert_event y e := by
  simp [upsert_event, List.filter_append, List.append_assoc]

theorem store_events_append : ∀ (es x y : List StoredEvent),
    store_events (x ++ y) es =
      x.filter (fun r => !(replaced_by es r)) ++ store_events y es
  | [], x, y => by
      simp [store_events, replaced_by]
  | e :: es, x, y => by
      show store_events (upsert_event (x ++ y) e) es = _
      rw [upsert_append, store_events_append es _ (upsert_event y e),
        List.filter_filter]
      congr 1
      apply List.filter_congr
      intro r _
      simp only [replaced_by, List.any_cons, Bool.not_or]
      rw [Bool.and_comm]

theorem mem_store_events : ∀ (es x : List StoredEvent) (r : StoredEvent),
    r ∈ store_events x es → r ∈ x ∨ r ∈ es
  | [], _, _, h => .inl h
  | e :: es, x, r, h => by
      rw [show store_events x (e :: es) = store_events (upsert_event x e) es from rfl] at h
      rcases mem_store_events es _ r h with h1 | h1
      · unfold upsert_event at h1
        rcases List.mem_append.mp h1 with h2 | h2
        · exact .inl (List.mem_of_mem_filter h2)
        · simp only [List.mem_singleton] at h2
          exact .inr (by rw [h2]; exact List.mem_cons_self e es)
      · exact .inr (List.mem_cons_of_mem e h1)

theorem store_events_nil_replaced (es : List StoredEvent) (r : StoredEvent)
    (h : r ∈ store_events [] es) : replaced_by es r = true := by
  rcases mem_store_events es [] r h with h1 | h1
  · simp at h1
  · exact List.any_eq_true.mpr ⟨r, h1, by simp⟩

theorem store_events_idem (st es : List StoredEvent) :
    store_events (store_events st es) es = store_events st es := by
  have h1 : store_events st es =
      st.filter (fun r => !(replaced_by es r)) ++ store_events [] es := by
    simpa using store_events_append es st []
  have h2 : store_events (store_events st es) es =
      (store_events st es).filter (fun r => !(replaced_by es r)) ++ store_events [] es := by
    simpa using store_events_append es (store_events st es) []
  rw [h2]
  conv_lhs => rw [h1]
  rw [List.filter_append]
  have hA : (st.filter (fun r => !(replaced_by es r))).filter
      (fun r => !(replaced_by es r)) = st.filter (fun r => !(replaced_by es r)) := by
    apply List.filter_eq_self.mpr
    intro a ha
    exact (List.mem_filter.mp ha).2
  have hB : (store_events [] es).filter (fun r => !(replaced_by es r)) = [] := by
    rw [List.filter_eq_nil_iff]
    intro r hr
    rw [store_events_nil_replaced es r hr]
    simp
  rw [hA, hB, List.append_nil]
  exact h1.symm

theorem filter_length_replace : ∀ (st : List StoredEvent) (e : StoredEvent),
    (st.map StoredEvent.event_id).Nodup → e.event_id ∈ st.map StoredEvent.event_id →
    (st.filter (fun r => !(r.event_id == e.event_id))).length + 1 = st.length := by
  intro st e
  induction st with
  | nil => intro _ h; simp at h
  | cons r rest ih =>
    intro hnd hmem
    simp only [List.map_cons, List.nodup_cons] at hnd
    obtain ⟨hnotin, hnd2⟩ := hnd
    rcases List.mem_cons.mp hmem with heq | hmem2
    · have hcond : (!(r.event_id == e.event_id)) = false := by simp [heq]
      have hrest : rest.filter (fun x => !(x.event_id == e.event_id)) = rest := by
        apply List.filter_eq_self.mpr
        intro a ha
        have hane : a.event_id ≠ e.event_id := by
          intro hEq
          apply hnotin
          rw [← heq, ← hEq]
          exact List.mem_map_of_mem StoredEvent.event_id ha
        simp [hane]
      rw [List.filter_cons, hcond]
      simp [hrest]
    · have hrne : r.event_id ≠ e.event_id := by
        intro hEq
        exact hnotin (hEq ▸ hmem2)
      have hr : (!(r.event_id == e.event_id)) = true := by simp [hrne]
      rw [List.filter_cons, hr]
      simp only [if_true, List.length_cons]
      have := ih hnd2 hmem2
      omega

/-- C6: persisting an event whose identifier already exists replaces the
prior row (the store keeps its length, and looking the identifier up
yields the new value — upsert, not append), and re-running `store_events`
on the same batch leaves the store contents unchanged. -/
theorem c6_store_upsert :
    (∀ (st : List StoredEvent) (e : StoredEvent),
      (st.map StoredEvent.event_id).Nodup →
      e.event_id ∈ st.map StoredEvent.event_id →
      (store_events st [e]).length = st.length ∧
      lookup_event (store_events st [e]) e.event_id = some e) ∧
    (∀ st es : List StoredEvent,
      store_events (store_events st es) es = store_events st es) := by
  constructor
  · intro st e hnd hmem
    constructor
    · show (upsert_event st e).length = st.length
      unfold upsert_event
      rw [List.length_append]
      have := filter_length_replace st e hnd hmem
      simp only [List.length_singleton]
      omega
    · show lookup_event (upsert_event st e) e.event_id = some e
      unfold lookup_event upsert_event
      rw [List.find?_append]
      have h1 : (st.filter (fun r => !(r.event_id == e.event_id))).find?
          (fun r => r.event_id == e.event_id) = none := by
        rw [List.find?_eq_none]
        intro x hx
        have hpx := (List.mem_filter.mp hx).2
        simp only [Bool.not_eq_eq_eq_not, Bool.not_true] at hpx
        simp [hpx]
      rw [h1]
      simp [List.find?]
  · exact store_events_idem

theorem c6_store_upsert_witness :
    (store_events c6_st [c6_e]).length = c6_st.length ∧
    lookup_event (store_events c6_st [c6_e]) c6_e.event_id = some c6_e ∧
    store_events (store_events c6_st [c6_e]) [c6_e] = store_events c6_st [c6_e] := by
  have h1 := c6_store_upsert.1 c6_st c6_e (by decide) (by decide)
  exact ⟨h1.1, h1.2, c6_store_upsert.2 c6_st [c6_e]⟩

theorem lookup_add (gs : List ((String × List String) × List Rat))
    (k2 : String × List String) (t : Rat) (k : String × List String) :
    lookup_group (add_to_groups gs k2 t) k =
      if k2 = k then some ((lookup_group gs k).getD [] ++ [t])
      else lookup_group gs k := by
  induction gs with
  | nil =>
    by_cases h : k2 = k
    · simp [add_to_groups, lookup_group, h]
    · simp [add_to_groups, lookup_group, h]
  | cons g rest ih =>
    obtain ⟨k3, ts3⟩ := g
    by_cases h32 : k3 = k2
    · subst h32
      simp only [add_to_groups, if_pos rfl]
      by_cases h3k : k3 = k
      · simp [lookup_group, h3k]
      · simp [lookup_group, h3k]
    · simp only [add_to_groups, if_neg h32]
      by_cases h3k : k3 = k
      · have h2k : ¬ k2 = k := fun h => h32 (h3k.trans h.symm)
        simp [lookup_group, h3k, h2k]
      · simp [lookup_group, h3k, ih]

theorem opt_app_assoc (o : Option (List Rat)) (t : Rat) (rest : List Rat) :
    opt_app (some (o.getD [] ++ [t])) rest = opt_app o (t :: rest) := by
  cases o <;> simp [opt_app]

theorem opt_app_nil (o : Option (List Rat)) : opt_app o [] = o := by
  cases o <;> simp [opt_app]

theorem lookup_fold : ∀ (msgs : List ParsedMessage)
    (gs0 : List ((String × List String) × List Rat)) (k : String × List String),
    lookup_group (msgs.foldl (fun gs m => add_to_groups gs (msg_key m) m.timestamp) gs0) k =
      opt_app (lookup_group gs0 k) (group_ts msgs k)
  | [], gs0, k => by simp [group_ts, opt_app_nil]
  | m :: ms, gs0, k => by
      rw [List.foldl_cons, lookup_fold ms _ k, lookup_add]
      by_cases hk : msg_key m = k
      · rw [if_pos hk]
        have hg : group_ts (m :: ms) k = m.timestamp :: group_ts ms k := by
          simp [group_ts, List.filter_cons, hk]
        rw [hg, opt_app_assoc]
      · rw [if_neg hk]
        have hg : group_ts (m :: ms) k = group_ts ms k := by
          simp [group_ts, List.filter_cons, hk]
        rw [hg]

theorem mem_keys_add (gs : List ((String × List String) × List Rat))
    (k2 : String × List String) (t : Rat) (k : String × List String) :
    k ∈ (add_to_groups gs k2 t).map Prod.fst ↔ k ∈ gs.map Prod.fst ∨ k = k2 := by
  induction gs with
  | nil => simp [add_to_groups, eq_comm]
  | cons g rest ih =>
    obtain ⟨k3, ts3⟩ := g
    by_cases h : k3 = k2
    · subst h
      simp only [add_to_groups, eq_self_iff_true, if_true, List.map_cons, List.mem_cons]
      tauto
    · simp only [add_to_groups, h, if_false, List.map_cons, List.mem_cons, ih]
      tauto

theorem nodup_keys_add (gs : List ((String × List String) × List Rat))
    (k2 : String × List String) (t : Rat)
    (h : (gs.map Prod.fst).Nodup) : ((add_to_groups gs k2 t).map Prod.fst).Nodup := by
  induction gs with
  | nil => simp [add_to_groups]
  | cons g rest ih =>
    obtain ⟨k3, ts3⟩ := g
    simp only [List.map_cons, List.nodup_cons] at h
    obtain ⟨hnotin, hnd⟩ := h
    by_cases hk : k3 = k2
    · subst hk
      simp only [add_to_groups, eq_self_iff_true, if_true, List.map_cons, List.nodup_cons]
      exact ⟨hnotin, hnd⟩
    · simp only [add_to_groups, if_neg hk, List.map_cons, List.nodup_cons]
      refine ⟨?_, ih hnd⟩
      rw [mem_keys_add]
      rintro (h1 | h1)
      · exact hnotin h1
      · exact hk h1

theorem nodup_keys_fold : ∀ (msgs : List ParsedMessage)
    (gs0 : List ((String × List String) × List Rat)),
    (gs0.map Prod.fst).Nodup →
    ((msgs.foldl (fun gs m => add_to_groups gs (msg_key m) m.timestamp) gs0).map
      Prod.fst).Nodup
  | [], _, h => h
  | m :: ms, gs0, h =>
      nodup_keys_fold ms _ (nodup_keys_add gs0 (msg_key m) m.timestamp h)

theorem lookup_none_of_not_mem : ∀ (gs : List ((String × List String) × List Rat))
    (k : String × List String), k ∉ gs.map Prod.fst → lookup_group gs k = none
  | [], _, _ => rfl
  | (k2, ts) :: rest, k, h => by
      simp only [List.map_cons, List.mem_cons, not_or] at h
      rw [show lookup_group ((k2, ts) :: rest) k =
        if k2 = k then some ts else lookup_group rest k from rfl]
      rw [if_neg (fun hh => h.1 hh.symm)]
      exact lookup_none_of_not_mem rest k h.2

theorem threads_filter : ∀ (gs : List ((String × List String) × List Rat)),
    (gs.map Prod.fst).Nodup → ∀ k : String × List String,
    ((gs.filterMap (fun g => if g.2.isEmpty then none else some (mk_thread g.1 g.2))).filter
      (fun th => decide (th.subject = k.1 ∧ th.participants = k.2))) =
      (match lookup_group gs k with
       | some ts => if ts.isEmpty then [] else [mk_thread k ts]
       | none => [])
  | [], _, k => rfl
  | (k2, ts2) :: rest, hnd, k => by
      simp only [List.map_cons, List.nodup_cons] at hnd
      obtain ⟨hnotin, hnd2⟩ := hnd
      have hlk : lookup_group ((k2, ts2) :: rest) k =
          if k2 = k then some ts2 else lookup_group rest k := rfl
      by_cases hk : k2 = k
      · subst hk
        have hrest : ((rest.filterMap
            (fun g => if g.2.isEmpty then none else some (mk_thread g.1 g.2))).filter
            (fun th => decide (th.subject = k2.1 ∧ th.participants = k2.2))) = [] := by
          rw [threads_filter rest hnd2 k2, lookup_none_of_not_mem rest k2 hnotin]
        rw [hlk, if_pos rfl]
        cases hts : ts2.isEmpty with
        | true =>
          simp only [List.filterMap_cons, hts, eq_self_iff_true, if_true]
          exact hrest
        | false =>
          simp only [List.filterMap_cons, hts, Bool.false_eq_true, if_false]
          rw [List.filter_cons]
          have hpred : (decide ((mk_thread k2 ts2).subject = k2.1 ∧
              (mk_thread k2 ts2).participants = k2.2)) = true := by
            simp [mk_thread]
          rw [hpred, if_pos rfl, hrest]
      · have hne : (decide ((mk_thread k2 ts2).subject = k.1 ∧
            (mk_thread k2 ts2).participants = k.2)) = false := by
          simp only [decide_eq_false_iff_not]
          rintro ⟨h1, h2⟩
          exact hk (Prod.ext h1 h2)
        rw [hlk, if_neg hk]
        cases hts : ts2.isEmpty with
        | true =>
          simp only [List.filterMap_cons, hts, eq_self_iff_true, if_true]
          exact threads_filter rest hnd2 k
        | false =>
          simp only [List.filterMap_cons, hts, Bool.false_eq_true, if_false]
          rw [List.filter_cons, hne]
          simp only [Bool.false_eq_true, if_false]
          exact threads_filter rest hnd2 k

/-- C7, counterexample: (a) `"Re: Fwd: Kickoff"` and `"Fwd: Fwd: Kickoff"`
both normalize to `"fwd: kickoff"` under the claim's strip-one-marker-once
rule, yet the code (which tries `re:`, `fw:`, `fwd:` in sequence) places
the two messages in two different threads; (b) two messages with the same
participant *set* but different multiplicities also land in two threads,
because the key uses the sorted participant tuple. -/
theorem c7_thread_grouping_counterexample :
    (claim_normalize_subject "Re: Fwd: Kickoff" =
      claim_normalize_subject "Fwd: Fwd: Kickoff" ∧
    (extract_communication_threads
      [⟨"Re: Fwd: Kickoff", ["a@x.com"], 1⟩,
       ⟨"Fwd: Fwd: Kickoff", ["a@x.com"], 2⟩]).length = 2) ∧
    ((["a@x.com", "a@x.com"] : List String).dedup = ["a@x.com"] ∧
    (extract_communication_threads
      [⟨"Kickoff", ["a@x.com", "a@x.com"], 1⟩,
       ⟨"Kickoff", ["a@x.com"], 2⟩]).length = 2) := by
  exact ⟨⟨by decide, by decide⟩, ⟨by decide, by decide⟩⟩

/-- C7 (amended): messages whose subjects normalize to the same string
under the code's normalization (lowercase; strip each of `re:`, `fw:`,
`fwd:` at most once, in that order) and whose participant lists are equal
up to reordering form exactly one CommunicationThread; its message_count
is the group size and its start/end dates are the minimum/maximum member
timestamps — in particular `Kickoff` and `Re: Kickoff` from the same
participants collapse into one thread with message_count 2. -/
theorem c7_thread_grouping (msgs : List ParsedMessage) (k : String × List String)
    (h : group_ts msgs k ≠ []) :
    (extract_communication_threads msgs).filter
        (fun th => decide (th.subject = k.1 ∧ th.participants = k.2)) =
      [mk_thread k (group_ts msgs k)] ∧
    (mk_thread k (group_ts msgs k)).message_count = (group_ts msgs k).length ∧
    (mk_thread k (group_ts msgs k)).start_date = rats_min (group_ts msgs k) ∧
    (mk_thread k (group_ts msgs k)).end_date = rats_max (group_ts msgs k) := by
  refine ⟨?_, rfl, rfl, rfl⟩
  unfold extract_communication_threads
  rw [threads_filter (thread_groups msgs) (nodup_keys_fold msgs [] (by simp)) k]
  have hlook : lookup_group (thread_groups msgs) k = some (group_ts msgs k) := by
    unfold thread_groups
    rw [lookup_fold msgs [] k]
    show opt_app none (group_ts msgs k) = _
    unfold opt_app
    dsimp only
    rw [if_neg (by simpa [List.isEmpty_iff] using h)]
  rw [hlook]
  dsimp only
  rw [if_neg (by simpa [List.isEmpty_iff] using h)]

theorem c7_thread_grouping_witness :
    group_ts c7_msgs c7_key ≠ [] ∧
    (extract_communication_threads c7_msgs).filter
        (fun th => decide (th.subject = c7_key.1 ∧ th.participants = c7_key.2)) =
      [mk_thread c7_key (group_ts c7_msgs c7_key)] ∧
    (mk_thread c7_key (group_ts c7_msgs c7_key)).message_count = 2 := by
  have h := c7_thread_grouping c7_msgs c7_key (by decide)
  refine ⟨by decide, h.1, ?_⟩
  rw [h.2.1]
  decide
